import Mathlib

/-!
Shallow embedding of the client-side roadmap/progress logic of the
Resolut personal-learning-assistant front end.

JavaScript objects with string keys preserve insertion order, so a
roadmap (chapter title -> lessons object) and a lessons object
(lesson title -> description) are embedded as association lists whose
entry order is the key insertion order.  JavaScript `undefined` values
arising from out-of-range indexing or missing properties are embedded
as `Option.none`; property access `obj[k]` is `objGet`;
`Object.keys obj` is `objKeys`; `Array.prototype.indexOf` is
`jsIndexOf` (`-1` when absent); `arr[i]` on a possibly out-of-range
integer index is `jsAt`.
-/

/-- An ordered lessons object: lesson title -> lesson description. -/
abbrev Lessons := List (String × String)

/-- An ordered roadmap object: chapter title -> lessons. -/
abbrev Roadmap := List (String × Lessons)

/-- `Object.keys` of an insertion-ordered object. -/
def objKeys {α : Type} (m : List (String × α)) : List String :=
  m.map Prod.fst

/-- Property access `m[key]` on an object; `none` is JS `undefined`.
JS objects cannot hold a key twice, so first match wins. -/
def objGet {α : Type} : List (String × α) → String → Option α
  | [], _ => none
  | (k, v) :: rest, key => if k = key then some v else objGet rest key

/-- The per-topic progress record fetched from
`/api/lessons/progress/:topic` (RoadmapView.jsx state `progress`).
Fields that the component reads without a null guard are `Option`s,
since the JSON value may lack them (`undefined`). -/
structure ProgressRecord where
  completed_lessons : Option (List String)
  current_chapter : Option String
  current_lesson : Option String
  status : Option String
deriving DecidableEq

/-- The composite lesson identifier built in `isLessonCompleted`:
the template literal `chapter: lesson`. -/
def lessonId (chapter lesson : String) : String :=
  chapter ++ ": " ++ lesson

/-- RoadmapView.jsx `isLessonCompleted`: false when `progress` or
`progress.completed_lessons` is absent, else membership of the
composite identifier in the completed list (`Array.includes`). -/
def isLessonCompleted (progress : Option ProgressRecord)
    (chapter lesson : String) : Bool :=
  match progress with
  | none => false
  | some p =>
    match p.completed_lessons with
    | none => false
    | some ids => ids.contains (lessonId chapter lesson)

/-- RoadmapView.jsx `isLessonUnlocked`: completed lessons are unlocked;
else the exact current (chapter, lesson) target is unlocked; else, when
`progress.status === 'not_started'`, only the first lesson of the first
chapter is unlocked; else locked.  The `roadmap` state is the fetched
roadmap object (the component renders lessons only when it is present). -/
def isLessonUnlocked (roadmap : Roadmap) (progress : Option ProgressRecord)
    (chapter lesson : String) : Bool :=
  if isLessonCompleted progress chapter lesson then true
  else
    match progress with
    | none => false
    | some p =>
      if p.current_chapter = some chapter ∧ p.current_lesson = some lesson then
        true
      else if p.status = some "not_started" then
        match (objKeys roadmap).head? with
        | none => false
        | some firstChapter =>
          if chapter = firstChapter then
            match objGet roadmap firstChapter with
            | none => false
            | some firstLessons =>
              if (objKeys firstLessons).head? = some lesson then true else false
          else false
      else false

/-- The (chapter, lesson) pair the bootstrap branch of
`isLessonUnlocked` compares against: the first lesson of the first
chapter, when both exist. -/
def bootstrapFirstPair (roadmap : Roadmap) : Option (String × String) :=
  match (objKeys roadmap).head? with
  | none => none
  | some firstChapter =>
    match objGet roadmap firstChapter with
    | none => none
    | some firstLessons =>
      ((objKeys firstLessons).head?).map (fun l => (firstChapter, l))

/-- RoadmapView.jsx `totalLessons`:
`Object.values(roadmap).reduce((acc, curr) => acc + Object.keys(curr).length, 0)`. -/
def totalLessons (roadmap : Roadmap) : Nat :=
  roadmap.foldl (fun acc curr => acc + (objKeys curr.2).length) 0

/-- RoadmapView.jsx `completedCount`:
`progress?.completed_lessons?.length || 0`. -/
def completedCount (progress : Option ProgressRecord) : Nat :=
  match progress with
  | none => 0
  | some p =>
    match p.completed_lessons with
    | none => 0
    | some ids => ids.length

/-- ECMAScript `Math.round`: the integral number closest to the
argument, preferring the one closer to positive infinity on a tie —
exactly the floor of the argument plus one half (the spec defines this
on the exact value of the double, not by a float addition). -/
def mathRound (q : ℚ) : ℤ :=
  ⌊q + 1 / 2⌋

/-- Round a rational to the nearest integer, ties to even (the IEEE 754
significand rounding used by every binary64 arithmetic operation). -/
def rne (s : ℚ) : ℤ :=
  if s - ⌊s⌋ < 1 / 2 then ⌊s⌋
  else if 1 / 2 < s - ⌊s⌋ then ⌊s⌋ + 1
  else if ⌊s⌋ % 2 = 0 then ⌊s⌋ else ⌊s⌋ + 1

/-- Floor of the base-2 logarithm of a positive rational, from the
integer logarithms of its numerator and denominator. -/
def qLog2 (q : ℚ) : ℤ :=
  if (2 : ℚ) ^ ((Nat.log 2 q.num.toNat : ℤ) - (Nat.log 2 q.den : ℤ)) ≤ q
  then (Nat.log 2 q.num.toNat : ℤ) - (Nat.log 2 q.den : ℤ)
  else (Nat.log 2 q.num.toNat : ℤ) - (Nat.log 2 q.den : ℤ) - 1

/-- IEEE 754 binary64 rounding (round to nearest, ties to even) of a
nonnegative rational: the 53-bit significand scaled at the value's
binade.  The exponent is unbounded here; this coincides with binary64
on the normal range, where all the values of this program live
(the components' counts are JS array lengths, far below 2^53). -/
def fl64 (q : ℚ) : ℚ :=
  if q ≤ 0 then 0
  else (rne (q * 2 ^ (52 - qLog2 q)) : ℚ) * 2 ^ (qLog2 q - 52)

/-- RoadmapView.jsx `progressPercent`:
`Math.round((completedCount / Math.max(1, totalLessons)) * 100)` under
JS number (binary64) semantics: the two integer operands are exact
doubles, the division and the multiplication by 100 each round to
nearest-even, and `Math.round` takes the nearest integer with ties
toward positive infinity. -/
def progressPercent (roadmap : Roadmap) (progress : Option ProgressRecord) : ℤ :=
  mathRound (fl64 (fl64 ((completedCount progress : ℚ) /
    ((max 1 (totalLessons roadmap) : ℕ) : ℚ)) * 100))

/-- Whether (chapter, lesson) names an actual lesson of the roadmap:
the chapter is a key and the lesson is a key of its lessons object. -/
def pairInRoadmap (roadmap : Roadmap) (chapter lesson : String) : Bool :=
  match objGet roadmap chapter with
  | none => false
  | some ls => (objKeys ls).contains lesson

/-- A quiz question of a lesson's content (LessonView.jsx
`content.questions` entries). -/
structure Question where
  question : String
  options : List String
  correct_option_index : Nat
  explanation : String
deriving DecidableEq

/-- LessonView.jsx per-session state: `mode` is one of the strings
`reading`, `quiz`, `completed`; the rest is the per-question quiz
state (`currentQuestionIdx`, `selectedOption`, `isAnswered`,
`isCorrect`). -/
structure LessonState where
  mode : String
  currentQuestionIdx : Nat
  selectedOption : Option Nat
  isAnswered : Bool
  isCorrect : Bool
deriving DecidableEq

/-- LessonView.jsx `handleOptionSelect`: ignored once answered,
otherwise overwrites the pending selection. -/
def handleOptionSelect (s : LessonState) (idx : Nat) : LessonState :=
  if s.isAnswered then s else { s with selectedOption := some idx }

/-- LessonView.jsx `handleSubmitAnswer`: early return when no option is
selected; otherwise reads `content.questions[currentQuestionIdx]` and
sets `isAnswered := true`, `isCorrect := selectedOption ===
question.correct_option_index`.  Reading a property of an out-of-range
question would throw in JS, embedded as `none`. -/
def handleSubmitAnswer (questions : List Question) (s : LessonState) :
    Option LessonState :=
  match s.selectedOption with
  | none => some s
  | some sel =>
    match questions.get? s.currentQuestionIdx with
    | none => none
    | some question =>
      some { s with
              isAnswered := true
              isCorrect := sel = question.correct_option_index }

/-- LessonView.jsx `handleNextQuestion`:
`currentQuestionIdx < content.questions.length - 1` (JS number
arithmetic, hence the Int comparison) advances and resets the
per-question state, otherwise the session mode becomes `completed`. -/
def handleNextQuestion (questions : List Question) (s : LessonState) :
    LessonState :=
  if (s.currentQuestionIdx : Int) < (questions.length : Int) - 1 then
    { s with
        currentQuestionIdx := s.currentQuestionIdx + 1
        selectedOption := none
        isAnswered := false
        isCorrect := false }
  else
    { s with mode := "completed" }

/-- `Array.prototype.indexOf` position: `some i` of the first index
holding `x`, else `none`. -/
def natIndexOf? : List String → String → Option Nat
  | [], _ => none
  | a :: as, x => if a = x then some 0 else (natIndexOf? as x).map (· + 1)

/-- `Array.prototype.indexOf` as used in Dashboard.jsx: the first
index of `x`, or `-1` when absent. -/
def jsIndexOf (l : List String) (x : String) : Int :=
  match natIndexOf? l x with
  | some n => (n : Int)
  | none => -1

/-- `arr[i]` array indexing with a JS number index; out of range is
`undefined`, embedded as `none`. -/
def jsAt (l : List String) (i : Int) : Option String :=
  if i < 0 then none else l.get? i.toNat

/-- Dashboard.jsx `handleLessonComplete` next-pair computation
(lines 167-190): starting from the just-completed (chapter, lesson),
with the freshly fetched roadmap:
if the chapter is found (`indexOf !== -1`), take the next lesson of the
chapter when one follows, else the first lesson of the next chapter
when one follows, else keep the completed pair.  The second component
is the JS value of `nextLessonTitle`, which can be `undefined` (`none`)
when the next chapter has no lessons. -/
def resolveNextLesson (roadmap : Roadmap) (chapter lesson : String) :
    String × Option String :=
  let chapters := objKeys roadmap
  let currentChapIdx := jsIndexOf chapters chapter
  if currentChapIdx ≠ -1 then
    let lessons := objKeys ((objGet roadmap chapter).getD [])
    let currentLessonIdx := jsIndexOf lessons lesson
    if currentLessonIdx < (lessons.length : Int) - 1 then
      (chapter, jsAt lessons (currentLessonIdx + 1))
    else if currentChapIdx < (chapters.length : Int) - 1 then
      let nextChapter := (jsAt chapters (currentChapIdx + 1)).getD ""
      let nextChapLessons := objKeys ((objGet roadmap nextChapter).getD [])
      (nextChapter, nextChapLessons.head?)
    else
      (chapter, some lesson)
  else
    (chapter, some lesson)

/-- The JSON body posted to `/api/lessons/complete` by
Dashboard.jsx `handleLessonComplete`. -/
structure CompletionPayload where
  topic : String
  current_chapter : String
  current_lesson : String
  next_chapter : String
  next_lesson : Option String
deriving DecidableEq

/-- Dashboard.jsx `handleLessonComplete` payload construction: the
completed pair plus the resolved next pair. -/
def buildCompletionPayload (roadmap : Roadmap) (topic chapter lesson : String) :
    CompletionPayload :=
  let next := resolveNextLesson roadmap chapter lesson
  ⟨topic, chapter, lesson, next.1, next.2⟩

/-- Outcome of one HTTP GET of `/api/topics`: success with a topic
list, or a failure which is or is not a backend-down condition
(`ERR_NETWORK` / network-error message / status 500, 502, 503 — the
`isBackendDown` predicate of TopicDashboard `fetchTopics`). -/
inductive TopicsResponse : Type
  | ok (topics : List String)
  | err (backendDown : Bool)
deriving DecidableEq

/-- Final state of the `fetchTopics` loop: topics loaded, or the error
banner shown (recording whether the failure was a backend-down one). -/
inductive FetchOutcome : Type
  | loaded (topics : List String)
  | failed (backendDown : Bool)
deriving DecidableEq

/-- TopicDashboard `fetchTopics(retryCount)`: the environment `env`
gives the response of the request issued with a given `retryCount`.
On a backend-down failure with `retryCount < 5`, the call reschedules
itself with `retryCount + 1` after a 2000 ms `setTimeout`; otherwise it
surfaces the result.  Returns the list of inter-attempt delays (ms)
together with the final outcome. -/
def fetchTopicsFrom (env : Nat → TopicsResponse) (retryCount : Nat) :
    List Nat × FetchOutcome :=
  match env retryCount with
  | .ok topics => ([], .loaded topics)
  | .err backendDown =>
    if h : backendDown = true ∧ retryCount < 5 then
      let rest := fetchTopicsFrom env (retryCount + 1)
      (2000 :: rest.1, rest.2)
    else
      ([], .failed backendDown)
termination_by 5 - retryCount
decreasing_by omega

/-- Result of TopicDashboard `handleDelete`: the topics list afterwards,
whether the DELETE request was issued, and whether the failure alert
was shown. -/
structure DeleteOutcome where
  topics : List String
  requestSent : Bool
  alertShown : Bool
deriving DecidableEq

/-- TopicDashboard `handleDelete`: returns early (no request) unless
`window.confirm` is accepted; on a successful request filters the topic
out of the list; on a failed request leaves the list and alerts. -/
def handleDelete (topics : List String) (topic : String)
    (confirmed : Bool) (requestSucceeds : Bool) : DeleteOutcome :=
  if ¬confirmed then
    ⟨topics, false, false⟩
  else if requestSucceeds then
    ⟨topics.filter (fun t => t ≠ topic), true, false⟩
  else
    ⟨topics, true, true⟩

/-! ### Supporting lemmas -/

theorem objGet_cons_self {α : Type} (k : String) (v : α)
    (rest : List (String × α)) : objGet ((k, v) :: rest) k = some v := by
  simp [objGet]

theorem natIndexOf?_eq_some_of_get? (l : List String) (hnd : l.Nodup)
    (i : Nat) (x : String) (h : l[i]? = some x) :
    natIndexOf? l x = some i := by
  induction l generalizing i with
  | nil => simp at h
  | cons a as ih =>
    rw [List.nodup_cons] at hnd
    cases i with
    | zero =>
      simp at h
      simp [natIndexOf?, h]
    | succ j =>
      simp at h
      have hmem : x ∈ as := List.getElem?_mem h
      have hne : ¬a = x := by
        intro hax
        exact hnd.1 (hax ▸ hmem)
      simp [natIndexOf?, hne, ih hnd.2 j h]

theorem natIndexOf?_eq_none_of_not_mem (l : List String) (x : String)
    (h : x ∉ l) : natIndexOf? l x = none := by
  induction l with
  | nil => simp [natIndexOf?]
  | cons a as ih =>
    simp at h
    have hne : ¬a = x := fun hax => h.1 hax.symm
    simp [natIndexOf?, hne, ih h.2]

theorem jsIndexOf_eq_of_get? (l : List String) (hnd : l.Nodup)
    (i : Nat) (x : String) (h : l[i]? = some x) :
    jsIndexOf l x = (i : Int) := by
  simp [jsIndexOf, natIndexOf?_eq_some_of_get? l hnd i x h]

theorem jsIndexOf_eq_neg_one_of_not_mem (l : List String) (x : String)
    (h : x ∉ l) : jsIndexOf l x = -1 := by
  simp [jsIndexOf, natIndexOf?_eq_none_of_not_mem l x h]

/-- The unlock decision for an existing, non-completed lesson record:
unlocked exactly for the current pair or the not-started bootstrap pair. -/
theorem unlock_char (R : Roadmap) (p : ProgressRecord) (c l : String)
    (hnc : isLessonCompleted (some p) c l = false) :
    isLessonUnlocked R (some p) c l = true ↔
      (p.current_chapter = some c ∧ p.current_lesson = some l) ∨
      (p.status = some "not_started" ∧ bootstrapFirstPair R = some (c, l)) := by
  by_cases hcur : p.current_chapter = some c ∧ p.current_lesson = some l
  · simp [isLessonUnlocked, hnc, hcur]
  · by_cases hst : p.status = some "not_started"
    · cases R with
      | nil =>
        simp [isLessonUnlocked, hnc, hcur, hst, bootstrapFirstPair, objKeys]
      | cons hd tl =>
        obtain ⟨fc, ls⟩ := hd
        by_cases hcfc : c = fc
        · subst hcfc
          simp [isLessonUnlocked, hnc, hcur, hst, bootstrapFirstPair, objKeys,
            objGet]
        · simp [isLessonUnlocked, hnc, hcur, hst, bootstrapFirstPair, objKeys,
            objGet, hcfc]
          exact fun x _ hfc => hcfc hfc.symm
    · simp [isLessonUnlocked, hnc, hcur, hst]

theorem rne_abs_le (s : ℚ) : |(rne s : ℚ) - s| ≤ 1 / 2 := by
  unfold rne
  have h1 := Int.floor_le s
  have h2 := Int.lt_floor_add_one s
  by_cases hlt : s - ⌊s⌋ < 1 / 2
  · rw [if_pos hlt, abs_le]
    constructor <;> linarith
  · rw [if_neg hlt]
    by_cases hgt : (1 : ℚ) / 2 < s - ⌊s⌋
    · rw [if_pos hgt, abs_le]
      push_cast
      constructor <;> linarith
    · rw [if_neg hgt]
      have heq : s - ⌊s⌋ = 1 / 2 := le_antisymm (not_lt.mp hgt) (not_lt.mp hlt)
      by_cases hev : (⌊s⌋ % 2 = 0)
      · rw [if_pos hev, abs_le]
        constructor <;> linarith
      · rw [if_neg hev, abs_le]
        push_cast
        constructor <;> linarith

theorem rne_intCast (m : ℤ) : rne (m : ℚ) = m := by
  unfold rne
  rw [Int.floor_intCast, sub_self, if_pos (by norm_num)]

theorem mathRound_abs_le (q : ℚ) : |(mathRound q : ℚ) - q| ≤ 1 / 2 := by
  unfold mathRound
  have h1 := Int.floor_le (q + 1 / 2)
  have h2 := Int.lt_floor_add_one (q + 1 / 2)
  rw [abs_le]
  constructor <;> linarith

theorem mathRound_intCast (m : ℤ) : mathRound (m : ℚ) = m := by
  unfold mathRound
  rw [Int.floor_eq_iff]
  constructor <;> linarith

theorem qLog2_spec (q : ℚ) (hq : 0 < q) :
    (2 : ℚ) ^ qLog2 q ≤ q ∧ q < 2 ^ (qLog2 q + 1) := by
  have hnum_pos : 0 < q.num := Rat.num_pos.mpr hq
  have hn0 : q.num.toNat ≠ 0 := by omega
  have hd0 : q.den ≠ 0 := q.den_nz
  have hna : 2 ^ Nat.log 2 q.num.toNat ≤ q.num.toNat :=
    Nat.pow_log_le_self 2 hn0
  have hna' : q.num.toNat < 2 ^ (Nat.log 2 q.num.toNat + 1) :=
    Nat.lt_pow_succ_log_self (by norm_num) _
  have hdb : 2 ^ Nat.log 2 q.den ≤ q.den := Nat.pow_log_le_self 2 hd0
  have hdb' : q.den < 2 ^ (Nat.log 2 q.den + 1) :=
    Nat.lt_pow_succ_log_self (by norm_num) _
  set a := Nat.log 2 q.num.toNat with ha
  set b := Nat.log 2 q.den with hb
  have hden_posQ : (0 : ℚ) < (q.den : ℚ) := by exact_mod_cast q.pos
  have hq_eq : q = (q.num.toNat : ℚ) / (q.den : ℚ) := by
    have hnt : ((q.num.toNat : ℤ)) = q.num := Int.toNat_of_nonneg hnum_pos.le
    have hcast : ((q.num.toNat : ℚ)) = ((q.num : ℤ) : ℚ) := by exact_mod_cast hnt
    rw [hcast, Rat.num_div_den]
  have hzn : ∀ k : ℕ, (2 : ℚ) ^ (k : ℤ) = ((2 ^ k : ℕ) : ℚ) := by
    intro k
    rw [zpow_natCast]
    push_cast
    ring
  have hNlb : (2 : ℚ) ^ (a : ℤ) ≤ (q.num.toNat : ℚ) := by
    rw [hzn]
    exact_mod_cast hna
  have hNub : (q.num.toNat : ℚ) < (2 : ℚ) ^ ((a : ℤ) + 1) := by
    rw [show ((a : ℤ) + 1) = ((a + 1 : ℕ) : ℤ) by push_cast; ring, hzn]
    exact_mod_cast hna'
  have hDlb : (2 : ℚ) ^ (b : ℤ) ≤ (q.den : ℚ) := by
    rw [hzn]
    exact_mod_cast hdb
  have hDub : (q.den : ℚ) < (2 : ℚ) ^ ((b : ℤ) + 1) := by
    rw [show ((b : ℤ) + 1) = ((b + 1 : ℕ) : ℤ) by push_cast; ring, hzn]
    exact_mod_cast hdb'
  have hz_pos : ∀ m : ℤ, (0 : ℚ) < 2 ^ m := fun m => zpow_pos (by norm_num) m
  have hupper : q < 2 ^ ((a : ℤ) - b + 1) := by
    rw [hq_eq, div_lt_iff₀ hden_posQ]
    calc (q.num.toNat : ℚ) < 2 ^ ((a : ℤ) + 1) := hNub
    _ = 2 ^ ((a : ℤ) - b + 1) * 2 ^ (b : ℤ) := by
        rw [← zpow_add₀ (by norm_num : (2 : ℚ) ≠ 0)]
        ring_nf
    _ ≤ 2 ^ ((a : ℤ) - b + 1) * (q.den : ℚ) := by
        exact mul_le_mul_of_nonneg_left hDlb (hz_pos _).le
  have hlower : (2 : ℚ) ^ ((a : ℤ) - b - 1) ≤ q := by
    rw [hq_eq, le_div_iff₀ hden_posQ]
    calc (2 : ℚ) ^ ((a : ℤ) - b - 1) * (q.den : ℚ)
        ≤ 2 ^ ((a : ℤ) - b - 1) * 2 ^ ((b : ℤ) + 1) := by
          exact mul_le_mul_of_nonneg_left hDub.le (hz_pos _).le
    _ = 2 ^ (a : ℤ) := by
        rw [← zpow_add₀ (by norm_num : (2 : ℚ) ≠ 0)]
        ring_nf
    _ ≤ (q.num.toNat : ℚ) := hNlb
  unfold qLog2
  rw [← ha, ← hb]
  by_cases hcase : (2 : ℚ) ^ ((a : ℤ) - b) ≤ q
  · rw [if_pos hcase]
    exact ⟨hcase, hupper⟩
  · rw [if_neg hcase]
    exact ⟨hlower, by rw [sub_add_cancel]; exact not_le.mp hcase⟩

theorem fl64_rel_error (q : ℚ) (hq : 0 < q) :
    |fl64 q - q| ≤ q * 2 ^ (-53 : ℤ) := by
  obtain ⟨hlo, hhi⟩ := qLog2_spec q hq
  rw [fl64, if_neg (not_le.mpr hq)]
  set e := qLog2 q with he
  set s := q * 2 ^ (52 - e) with hs
  have h2ne : (2 : ℚ) ≠ 0 := by norm_num
  have hz_pos : ∀ m : ℤ, (0 : ℚ) < 2 ^ m := fun m => zpow_pos (by norm_num) m
  have hq_eq : s * 2 ^ (e - 52) = q := by
    rw [hs, mul_assoc, ← zpow_add₀ h2ne]
    norm_num
  calc |(rne s : ℚ) * 2 ^ (e - 52) - q|
      = |(rne s : ℚ) - s| * 2 ^ (e - 52) := by
        rw [← hq_eq, ← sub_mul, abs_mul, abs_of_pos (hz_pos _)]
    _ ≤ 1 / 2 * 2 ^ (e - 52) :=
        mul_le_mul_of_nonneg_right (rne_abs_le s) (hz_pos _).le
    _ = 2 ^ (e - 53) := by
        rw [show (e - 53 : ℤ) = (-1) + (e - 52) by ring, zpow_add₀ h2ne]
        norm_num
    _ = 2 ^ e * 2 ^ (-53 : ℤ) := by
        rw [← zpow_add₀ h2ne]
        ring_nf
    _ ≤ q * 2 ^ (-53 : ℤ) :=
        mul_le_mul_of_nonneg_right hlo (hz_pos _).le

theorem two_zpow_neg53 : (2 : ℚ) ^ (-53 : ℤ) = 1 / 9007199254740992 := by
  rw [show (-53 : ℤ) = -((53 : ℕ) : ℤ) by norm_num, zpow_neg, zpow_natCast]
  norm_num

theorem fl64_pos (q : ℚ) (hq : 0 < q) : 0 < fl64 q := by
  have h := abs_le.mp (fl64_rel_error q hq)
  rw [two_zpow_neg53] at h
  linarith [h.1, hq]

theorem fl64_natCast (n : ℕ) (hn : n < 2 ^ 53) : fl64 (n : ℚ) = n := by
  rcases Nat.eq_zero_or_pos n with h0 | hpos
  · subst h0
    simp [fl64]
  · have hq : (0 : ℚ) < (n : ℚ) := by exact_mod_cast hpos
    obtain ⟨hlo, hhi⟩ := qLog2_spec (n : ℚ) hq
    set e := qLog2 (n : ℚ) with he
    have h2ne : (2 : ℚ) ≠ 0 := by norm_num
    have hzn : ∀ k : ℕ, (2 : ℚ) ^ (k : ℤ) = ((2 ^ k : ℕ) : ℚ) := by
      intro k
      rw [zpow_natCast]
      push_cast
      ring
    have he_nonneg : 0 ≤ e := by
      by_contra hneg
      push_neg at hneg
      have h1 : (2 : ℚ) ^ (e + 1) ≤ 2 ^ (0 : ℤ) :=
        zpow_le_zpow_right₀ (by norm_num) (by omega)
      rw [zpow_zero] at h1
      have h2 : (1 : ℚ) ≤ (n : ℚ) := by exact_mod_cast hpos
      linarith
    have he_le : e ≤ 52 := by
      by_contra hgt
      push_neg at hgt
      have h1 : (2 : ℚ) ^ ((53 : ℕ) : ℤ) ≤ 2 ^ e :=
        zpow_le_zpow_right₀ (by norm_num) (by omega)
      rw [hzn] at h1
      have h2 : (n : ℚ) < ((2 ^ 53 : ℕ) : ℚ) := by exact_mod_cast hn
      linarith
    set k : ℕ := (52 - e).toNat with hk
    have hk_eq : (52 - e : ℤ) = (k : ℤ) := (Int.toNat_of_nonneg (by omega)).symm
    have hs : (n : ℚ) * 2 ^ (52 - e : ℤ) = ((n * 2 ^ k : ℕ) : ℚ) := by
      rw [hk_eq, hzn]
      push_cast
      ring
    rw [fl64, if_neg (not_le.mpr hq), ← he, hs]
    have hr : rne ((n * 2 ^ k : ℕ) : ℚ) = ((n * 2 ^ k : ℕ) : ℤ) := by
      have := rne_intCast ((n * 2 ^ k : ℕ) : ℤ)
      rwa [Int.cast_natCast] at this
    rw [hr]
    have hek : (e - 52 : ℤ) = -(k : ℤ) := by omega
    rw [hek, zpow_neg, zpow_natCast]
    push_cast
    rw [mul_assoc, mul_inv_cancel₀ (pow_ne_zero k (by norm_num)), mul_one]

/-! ### Claim theorems -/

/-- C1: For every roadmap R and progress record P, a non-completed
lesson (chapter, lesson) is reported unlocked by `isLessonUnlocked`
exactly when it equals P's current (chapter, lesson) pair, or — only
when P's status is `not_started` (the bootstrap case of a progress
record with no progress) — it is the first lesson of the first chapter;
and for every R with at least one chapter and lesson and an empty P
with status `not_started`, exactly one lesson — the first lesson of
the first chapter — is unlocked and all others are locked. -/
theorem c1_unlock_exactly_current_or_bootstrap (R : Roadmap)
    (p : ProgressRecord) :
    (∀ c l, isLessonCompleted (some p) c l = false →
      (isLessonUnlocked R (some p) c l = true ↔
        (p.current_chapter = some c ∧ p.current_lesson = some l) ∨
        (p.status = some "not_started" ∧ bootstrapFirstPair R = some (c, l)))) ∧
    (∀ fc fl fd fls rest,
      R = (fc, (fl, fd) :: fls) :: rest →
      p = ⟨some [], none, none, some "not_started"⟩ →
      ∀ c l, (isLessonUnlocked R (some p) c l = true ↔ c = fc ∧ l = fl)) := by
  constructor
  · exact fun c l hnc => unlock_char R p c l hnc
  · rintro fc fl fd fls rest hR hp c l
    subst hR
    subst hp
    have hnc : isLessonCompleted
        (some ⟨some [], none, none, some "not_started"⟩) c l = false := by
      simp [isLessonCompleted]
    rw [unlock_char _ _ _ _ hnc]
    simp [bootstrapFirstPair, objKeys, objGet]
    constructor
    · rintro ⟨h1, h2⟩
      exact ⟨h1.symm, h2.symm⟩
    · rintro ⟨h1, h2⟩
      exact ⟨h1.symm, h2.symm⟩

/-- Witness for C1 at a concrete bootstrap configuration. -/
theorem c1_unlock_exactly_current_or_bootstrap_witness :
    isLessonUnlocked [("A", [("L1", "d"), ("L2", "d")])]
      (some ⟨some [], none, none, some "not_started"⟩) "A" "L1" = true := by
  have h := (c1_unlock_exactly_current_or_bootstrap
      [("A", [("L1", "d"), ("L2", "d")])]
      ⟨some [], none, none, some "not_started"⟩).2
      "A" "L1" "d" [("L2", "d")] [] rfl rfl "A" "L1"
  exact h.mpr ⟨rfl, rfl⟩

/-- C2: a lesson whose identifier is in P's completed set is reported
completed (and therefore unlocked), regardless of P's current-chapter
and current-lesson values. -/
theorem c2_completed_always_reported (R : Roadmap) (p : ProgressRecord)
    (c l : String) (ids : List String)
    (hids : p.completed_lessons = some ids)
    (hmem : lessonId c l ∈ ids) :
    isLessonCompleted (some p) c l = true ∧
    isLessonUnlocked R (some p) c l = true := by
  have hcomp : isLessonCompleted (some p) c l = true := by
    simpa [isLessonCompleted, hids] using hmem
  exact ⟨hcomp, by simp [isLessonUnlocked, hcomp]⟩

/-- Witness for C2 at a concrete record whose current pair is elsewhere. -/
theorem c2_completed_always_reported_witness :
    isLessonCompleted
      (some ⟨some ["A: L1"], some "Z", some "W", some "in_progress"⟩)
      "A" "L1" = true ∧
    isLessonUnlocked [("A", [("L1", "d")])]
      (some ⟨some ["A: L1"], some "Z", some "W", some "in_progress"⟩)
      "A" "L1" = true :=
  c2_completed_always_reported [("A", [("L1", "d")])]
    ⟨some ["A: L1"], some "Z", some "W", some "in_progress"⟩
    "A" "L1" ["A: L1"] rfl (by simp [lessonId])

/-- C3: the unlock computation is a total function (it is defined by
structural recursion and option-guarded access, never a partial
operation), and a non-completed lesson matched by no rule — in
particular any actual lesson of R when P's current pair is stale,
outside the bootstrap case — is reported locked. -/
theorem c3_total_and_stale_locked (R : Roadmap) (p : ProgressRecord)
    (c l : String)
    (hstale : ∀ cc cl, p.current_chapter = some cc →
      p.current_lesson = some cl → pairInRoadmap R cc cl = false)
    (hin : pairInRoadmap R c l = true)
    (hnc : isLessonCompleted (some p) c l = false)
    (hnboot : ¬(p.status = some "not_started" ∧
      bootstrapFirstPair R = some (c, l))) :
    isLessonUnlocked R (some p) c l = false := by
  rw [Bool.eq_false_iff]
  intro htrue
  rcases (unlock_char R p c l hnc).mp htrue with ⟨h1, h2⟩ | hb
  · have hfalse := hstale c l h1 h2
    rw [hfalse] at hin
    exact Bool.false_ne_true hin
  · exact hnboot hb

/-- Witness for C3: stale current pair ("Gone", "X"), the real lesson
("A", "L1") is locked. -/
theorem c3_total_and_stale_locked_witness :
    isLessonUnlocked [("A", [("L1", "d")])]
      (some ⟨none, some "Gone", some "X", some "in_progress"⟩)
      "A" "L1" = false := by
  refine c3_total_and_stale_locked [("A", [("L1", "d")])]
    ⟨none, some "Gone", some "X", some "in_progress"⟩ "A" "L1"
    ?_ (by decide) (by decide) (by decide)
  intro cc cl h1 h2
  injection h1 with e1
  injection h2 with e2
  subst e1
  subst e2
  decide

/-- C4 counterexample: a roadmap whose only chapter has no lessons has
total lesson count 0, yet a progress record with one completed
identifier yields percentage 100, not 0 (the binary64 evaluation is
exact at these integer inputs). -/
theorem c4_counterexample :
    totalLessons [("A", [])] = 0 ∧
    progressPercent [("A", [])]
      (some ⟨some ["X: Y"], none, none, some "in_progress"⟩) ≠ 0 ∧
    progressPercent [("A", [])]
      (some ⟨some ["X: Y"], none, none, some "in_progress"⟩) = 100 := by
  have hf1 : fl64 (1 : ℚ) = 1 := by
    have h := fl64_natCast 1 (by norm_num)
    push_cast at h
    exact h
  have hf100 : fl64 (100 : ℚ) = 100 := by
    have h := fl64_natCast 100 (by norm_num)
    push_cast at h
    exact h
  have hm100 : mathRound (100 : ℚ) = 100 := by
    have h := mathRound_intCast 100
    push_cast at h
    exact h
  have h100 : progressPercent [("A", [])]
      (some ⟨some ["X: Y"], none, none, some "in_progress"⟩) = 100 := by
    have hpp : progressPercent [("A", [])]
        (some ⟨some ["X: Y"], none, none, some "in_progress"⟩)
        = mathRound (fl64 (fl64 (((1 : ℕ) : ℚ) / ((1 : ℕ) : ℚ)) * 100)) := rfl
    rw [hpp]
    norm_num [hf1, hf100, hm100]
  exact ⟨rfl, by rw [h100]; norm_num, h100⟩

/-- C4 (amended): for JS-representable sizes (completed count at most
2^32, total lessons at most 2^53 — JS array lengths are far below
both), the percentage is the exact ratio completed / max 1 total,
times 100, rounded to a nearest integer (a float64 tie may resolve in
either direction); when the total lesson count is 0 the divisor is
floored at 1 (so the value is 100 × completed count, with no division
by zero), and with additionally no completed lessons it is 0. -/
theorem c4_percent_formula (R : Roadmap) (P : Option ProgressRecord)
    (hc : completedCount P ≤ 2 ^ 32) (_ht : totalLessons R ≤ 2 ^ 53) :
    2 * |progressPercent R P * ((max 1 (totalLessons R) : ℕ) : ℤ)
        - 100 * (completedCount P : ℤ)| ≤ ((max 1 (totalLessons R) : ℕ) : ℤ) ∧
    (totalLessons R = 0 → progressPercent R P = 100 * (completedCount P : ℤ)) ∧
    (totalLessons R = 0 → completedCount P = 0 → progressPercent R P = 0) := by
  have hzero2 : totalLessons R = 0 →
      progressPercent R P = 100 * (completedCount P : ℤ) := by
    intro h0
    have hden : ((max 1 (totalLessons R) : ℕ) : ℚ) = 1 := by
      rw [h0]
      norm_num
    have hfc : fl64 ((completedCount P : ℕ) : ℚ) = ((completedCount P : ℕ) : ℚ) :=
      fl64_natCast (completedCount P) (by omega)
    have hfc100 : fl64 (((completedCount P : ℕ) : ℚ) * 100)
        = ((completedCount P : ℕ) : ℚ) * 100 := by
      have h := fl64_natCast (completedCount P * 100) (by omega)
      push_cast at h
      exact h
    have hmr : mathRound (((completedCount P : ℕ) : ℚ) * 100)
        = 100 * (completedCount P : ℤ) := by
      have h := mathRound_intCast ((100 * completedCount P : ℕ) : ℤ)
      push_cast at h
      rw [mul_comm] at h
      exact h
    have hpp : progressPercent R P
        = mathRound (fl64 (fl64 ((completedCount P : ℚ) /
            ((max 1 (totalLessons R) : ℕ) : ℚ)) * 100)) := rfl
    rw [hpp, hden, div_one, hfc, hfc100, hmr]
  refine ⟨?_, hzero2, fun h0 hc0 => by rw [hzero2 h0, hc0]; norm_num⟩
  set c := completedCount P with hcc
  set t := max 1 (totalLessons R) with htt
  have ht1 : 1 ≤ t := le_max_left _ _
  have hpp : progressPercent R P
      = mathRound (fl64 (fl64 ((c : ℚ) / ((t : ℕ) : ℚ)) * 100)) := rfl
  by_cases hc0 : c = 0
  · have hx0 : ((c : ℕ) : ℚ) / ((t : ℕ) : ℚ) = 0 := by
      rw [hc0]
      norm_num
    have hfz : fl64 0 = 0 := by
      rw [fl64, if_pos le_rfl]
    have hm0 : mathRound 0 = 0 := by
      have h := mathRound_intCast 0
      push_cast at h
      exact h
    have hpp0 : progressPercent R P = 0 := by
      rw [hpp, hx0, hfz, zero_mul, hfz, hm0]
    rw [hpp0, hc0]
    simp
  · have htQ : (0 : ℚ) < ((t : ℕ) : ℚ) := by
      exact_mod_cast (by omega : 0 < t)
    have hcQ : (0 : ℚ) < ((c : ℕ) : ℚ) := by
      exact_mod_cast Nat.pos_of_ne_zero hc0
    set x : ℚ := ((c : ℕ) : ℚ) / ((t : ℕ) : ℚ) with hxdef
    have hx_pos : 0 < x := div_pos hcQ htQ
    have hxt : x * ((t : ℕ) : ℚ) = ((c : ℕ) : ℚ) := by
      rw [hxdef]
      field_simp
    have e1 := fl64_rel_error x hx_pos
    set x1 := fl64 x with hx1def
    have hx1_pos : 0 < x1 := fl64_pos x hx_pos
    have e2 := fl64_rel_error (x1 * 100) (by positivity)
    set y1 := fl64 (x1 * 100) with hy1def
    rw [two_zpow_neg53] at e1 e2
    have he1 := abs_le.mp e1
    have he2 := abs_le.mp e2
    have hx1_ub : x1 ≤ 2 * x := by
      linarith [he1.2, hx_pos]
    have htri : |y1 - 100 * x| ≤ 300 * x * (1 / 9007199254740992) := by
      rw [abs_le]
      constructor <;> linarith [he1.1, he1.2, he2.1, he2.2, hx1_ub, hx_pos]
    have hnb := abs_le.mp (mathRound_abs_le y1)
    rw [hpp]
    set n := mathRound y1 with hn
    by_contra hgoal
    push_neg at hgoal
    have hgoal2 : ((t : ℕ) : ℤ) + 1 ≤ 2 * |n * ((t : ℕ) : ℤ) - 100 * ((c : ℕ) : ℤ)| :=
      Int.lt_iff_add_one_le.mp hgoal
    have hcastQ : ((t : ℕ) : ℚ) + 1
        ≤ 2 * |(n : ℚ) * ((t : ℕ) : ℚ) - 100 * ((c : ℕ) : ℚ)| := by
      exact_mod_cast hgoal2
    have hkey : (n : ℚ) * ((t : ℕ) : ℚ) - 100 * ((c : ℕ) : ℚ)
        = ((n : ℚ) - 100 * x) * ((t : ℕ) : ℚ) := by
      rw [sub_mul, mul_assoc, hxt]
    rw [hkey, abs_mul, abs_of_pos htQ] at hcastQ
    have habs_n : |(n : ℚ) - 100 * x|
        ≤ 1 / 2 + 300 * x * (1 / 9007199254740992) := by
      calc |(n : ℚ) - 100 * x|
          ≤ |(n : ℚ) - y1| + |y1 - 100 * x| := abs_sub_le _ _ _
        _ ≤ 1 / 2 + 300 * x * (1 / 9007199254740992) := by
            have h1 : |(n : ℚ) - y1| ≤ 1 / 2 := by
              rw [abs_le]
              constructor <;> linarith [hnb.1, hnb.2]
            exact add_le_add h1 htri
    have hmul : |(n : ℚ) - 100 * x| * ((t : ℕ) : ℚ)
        ≤ (1 / 2 + 300 * x * (1 / 9007199254740992)) * ((t : ℕ) : ℚ) :=
      mul_le_mul_of_nonneg_right habs_n htQ.le
    have hexp : (1 / 2 + 300 * x * (1 / 9007199254740992)) * ((t : ℕ) : ℚ)
        = ((t : ℕ) : ℚ) / 2 + 300 * ((c : ℕ) : ℚ) * (1 / 9007199254740992) := by
      calc (1 / 2 + 300 * x * (1 / 9007199254740992)) * ((t : ℕ) : ℚ)
          = ((t : ℕ) : ℚ) / 2
            + 300 * (x * ((t : ℕ) : ℚ)) * (1 / 9007199254740992) := by ring
        _ = ((t : ℕ) : ℚ) / 2 + 300 * ((c : ℕ) : ℚ) * (1 / 9007199254740992) := by
            rw [hxt]
    rw [hexp] at hmul
    have hcb : ((c : ℕ) : ℚ) ≤ 4294967296 := by
      exact_mod_cast hc
    linarith [hcastQ, hmul, hcb]

/-- Witness for C4's amended zero-total clauses at a concrete empty
chapter and empty progress. -/
theorem c4_percent_formula_witness :
    progressPercent [("A", [])] none = 0 :=
  (c4_percent_formula [("A", [])] none (Nat.zero_le _) (Nat.zero_le _)).2.2
    rfl rfl

/-- C5: submitting with no selected option leaves the state unchanged;
submitting with selected option `sel` sets `isAnswered := true` and
`isCorrect` to the exact equality test against the question's
`correct_option_index`; once answered, selecting any option is a
no-op. -/
theorem c5_quiz_answer_submission (questions : List Question)
    (s : LessonState) :
    (s.selectedOption = none → handleSubmitAnswer questions s = some s) ∧
    (∀ sel q, s.selectedOption = some sel →
      questions[s.currentQuestionIdx]? = some q →
      handleSubmitAnswer questions s =
        some { s with
                isAnswered := true
                isCorrect := decide (sel = q.correct_option_index) }) ∧
    (s.isAnswered = true → ∀ idx, handleOptionSelect s idx = s) := by
  refine ⟨?_, ?_, ?_⟩
  · intro hnone
    simp [handleSubmitAnswer, hnone]
  · intro sel q hsel hq
    simp [handleSubmitAnswer, hsel, hq]
  · intro hans idx
    simp [handleOptionSelect, hans]

/-- Witness for C5: selecting option 1 on a question whose correct
index is 1 and submitting yields answered and correct. -/
theorem c5_quiz_answer_submission_witness :
    handleSubmitAnswer [⟨"p", ["a", "b"], 1, "e"⟩]
      ⟨"quiz", 0, some 1, false, false⟩
      = some ⟨"quiz", 0, some 1, true, true⟩ :=
  (c5_quiz_answer_submission [⟨"p", ["a", "b"], 1, "e"⟩]
    ⟨"quiz", 0, some 1, false, false⟩).2.1 1 ⟨"p", ["a", "b"], 1, "e"⟩ rfl rfl

/-- C6: advancing when at least one more question remains increments
the question index and resets the per-question state; advancing from
the last question sets the session mode to `completed`. -/
theorem c6_quiz_advance (questions : List Question) (s : LessonState) :
    (s.currentQuestionIdx + 1 < questions.length →
      handleNextQuestion questions s =
        { s with
            currentQuestionIdx := s.currentQuestionIdx + 1
            selectedOption := none
            isAnswered := false
            isCorrect := false }) ∧
    (questions.length ≤ s.currentQuestionIdx + 1 →
      handleNextQuestion questions s = { s with mode := "completed" }) := by
  constructor
  · intro h
    rw [handleNextQuestion, if_pos (by omega)]
  · intro h
    rw [handleNextQuestion, if_neg (by omega)]

/-- Witness for C6: a two-question quiz advances from question 0 to
question 1 with cleared answer state. -/
theorem c6_quiz_advance_witness :
    handleNextQuestion [⟨"p", ["a"], 0, "e"⟩, ⟨"q", ["b"], 0, "f"⟩]
      ⟨"quiz", 0, some 0, true, true⟩
      = ⟨"quiz", 1, none, false, false⟩ :=
  (c6_quiz_advance [⟨"p", ["a"], 0, "e"⟩, ⟨"q", ["b"], 0, "f"⟩]
    ⟨"quiz", 0, some 0, true, true⟩).1 (by decide)

theorem lt_length_of_getElem? {α : Type} (l : List α) (i : Nat) (x : α)
    (h : l[i]? = some x) : i < l.length := by
  by_contra hge
  rw [List.getElem?_eq_none (by omega)] at h
  simp at h

theorem jsAt_natCast (l : List String) (n : Nat) : jsAt l (n : Int) = l[n]? := by
  rw [jsAt, if_neg (by omega)]
  simp

/-- The body of `resolveNextLesson` with the two `indexOf` results and
the chapter lookup rewritten to their known values. -/
theorem resolveNextLesson_body (R : Roadmap) (c l : String) (cls : Lessons)
    (ci li : Nat)
    (hidxC : jsIndexOf (objKeys R) c = (ci : Int))
    (hcls : objGet R c = some cls)
    (hidxL : jsIndexOf (objKeys cls) l = (li : Int)) :
    resolveNextLesson R c l =
      (if ((ci : Int)) ≠ -1 then
        if (li : Int) < ((objKeys cls).length : Int) - 1 then
          (c, jsAt (objKeys cls) ((li : Int) + 1))
        else if (ci : Int) < ((objKeys R).length : Int) - 1 then
          ((jsAt (objKeys R) ((ci : Int) + 1)).getD "",
           (objKeys ((objGet R
              ((jsAt (objKeys R) ((ci : Int) + 1)).getD "")).getD [])).head?)
        else (c, some l)
      else (c, some l)) := by
  simp only [resolveNextLesson, hidxC, hcls, hidxL, Option.getD_some]

/-- C7: next-lesson resolution, for a completed pair that occurs in the
roadmap (with the roadmap's chapter keys and the chapter's lesson keys
duplicate-free, as JS object keys are): the next lesson of the same
chapter when one follows; else the next chapter together with its first
lesson when a chapter follows; else the same pair.  Includes the
2-chapter example A:[L1,L2], B:[L3]. -/
theorem c7_next_lesson_resolution (R : Roadmap) (c l : String)
    (cls : Lessons) (ci li : Nat)
    (hndC : (objKeys R).Nodup)
    (hc : (objKeys R)[ci]? = some c)
    (hcls : objGet R c = some cls)
    (hndL : (objKeys cls).Nodup)
    (hl : (objKeys cls)[li]? = some l) :
    (∀ l', (objKeys cls)[li + 1]? = some l' →
      resolveNextLesson R c l = (c, some l')) ∧
    (li + 1 = (objKeys cls).length →
      ∀ c', (objKeys R)[ci + 1]? = some c' →
        resolveNextLesson R c l
          = (c', (objKeys ((objGet R c').getD [])).head?)) ∧
    (li + 1 = (objKeys cls).length → ci + 1 = (objKeys R).length →
      resolveNextLesson R c l = (c, some l)) ∧
    (resolveNextLesson [("A", [("L1", ""), ("L2", "")]), ("B", [("L3", "")])]
        "A" "L1" = ("A", some "L2") ∧
     resolveNextLesson [("A", [("L1", ""), ("L2", "")]), ("B", [("L3", "")])]
        "A" "L2" = ("B", some "L3") ∧
     resolveNextLesson [("A", [("L1", ""), ("L2", "")]), ("B", [("L3", "")])]
        "B" "L3" = ("B", some "L3")) := by
  have hidxC : jsIndexOf (objKeys R) c = (ci : Int) :=
    jsIndexOf_eq_of_get? _ hndC _ _ hc
  have hidxL : jsIndexOf (objKeys cls) l = (li : Int) :=
    jsIndexOf_eq_of_get? _ hndL _ _ hl
  have hbody := resolveNextLesson_body R c l cls ci li hidxC hcls hidxL
  have hcast1 : ((li : Int)) + 1 = ((li + 1 : Nat) : Int) := by push_cast; ring
  have hcast2 : ((ci : Int)) + 1 = ((ci + 1 : Nat) : Int) := by push_cast; ring
  refine ⟨?_, ?_, ?_, by decide, by decide, by decide⟩
  · intro l' hl'
    have hlt : li + 1 < (objKeys cls).length := lt_length_of_getElem? _ _ _ hl'
    rw [hbody, if_pos (by omega), if_pos (by omega)]
    rw [hcast1, jsAt_natCast, hl']
  · intro hlast c' hc'
    have hltC : ci + 1 < (objKeys R).length := lt_length_of_getElem? _ _ _ hc'
    rw [hbody, if_pos (by omega), if_neg (by omega), if_pos (by omega)]
    rw [hcast2, jsAt_natCast, hc']
    simp
  · intro hlast hlastC
    rw [hbody, if_pos (by omega), if_neg (by omega), if_neg (by omega)]

/-- Witness for C7 at the example roadmap: completing A/L1 resolves to
A/L2. -/
theorem c7_next_lesson_resolution_witness :
    resolveNextLesson [("A", [("L1", ""), ("L2", "")]), ("B", [("L3", "")])]
      "A" "L1" = ("A", some "L2") :=
  (c7_next_lesson_resolution
    [("A", [("L1", ""), ("L2", "")]), ("B", [("L3", "")])] "A" "L1"
    [("L1", ""), ("L2", "")] 0 0
    (by decide) (by decide) (by decide) (by decide) (by decide)).1
    "L2" (by decide)

theorem fetchTopicsFrom_len_le (env : Nat → TopicsResponse) :
    ∀ k r, 5 - r ≤ k → (fetchTopicsFrom env r).1.length ≤ 5 - r := by
  intro k
  induction k with
  | zero =>
    intro r hr
    rw [fetchTopicsFrom]
    cases env r with
    | ok ts => simp
    | err d =>
      dsimp only
      rw [dif_neg (fun hconj => absurd hconj.2 (by omega))]
      simp
  | succ k ih =>
    intro r hr
    rw [fetchTopicsFrom]
    cases env r with
    | ok ts => simp
    | err d =>
      dsimp only
      by_cases hd : d = true ∧ r < 5
      · rw [dif_pos hd]
        have := ih (r + 1) (by omega)
        simp only [List.length_cons]
        omega
      · rw [dif_neg hd]
        simp

theorem fetchTopicsFrom_delay_eq (env : Nat → TopicsResponse) :
    ∀ k r, 5 - r ≤ k → ∀ d, d ∈ (fetchTopicsFrom env r).1 → d = 2000 := by
  intro k
  induction k with
  | zero =>
    intro r hr d hd
    rw [fetchTopicsFrom] at hd
    cases henv : env r with
    | ok ts => rw [henv] at hd; simp at hd
    | err b =>
      rw [henv] at hd
      dsimp only at hd
      rw [dif_neg (fun hconj => absurd hconj.2 (by omega))] at hd
      simp at hd
  | succ k ih =>
    intro r hr d hd
    rw [fetchTopicsFrom] at hd
    cases henv : env r with
    | ok ts => rw [henv] at hd; simp at hd
    | err b =>
      rw [henv] at hd
      dsimp only at hd
      by_cases hb : b = true ∧ r < 5
      · rw [dif_pos hb] at hd
        simp only [List.mem_cons] at hd
        rcases hd with h2000 | hrest
        · exact h2000
        · exact ih (r + 1) (by omega) d hrest
      · rw [dif_neg hb] at hd
        simp at hd

theorem fetchTopicsFrom_persistent (env : Nat → TopicsResponse)
    (henv : ∀ n, env n = .err true) :
    fetchTopicsFrom env 0 = ([2000, 2000, 2000, 2000, 2000], .failed true) := by
  have h5 : fetchTopicsFrom env 5 = ([], .failed true) := by
    rw [fetchTopicsFrom, henv 5]
    dsimp only
    rw [dif_neg (fun hconj => absurd hconj.2 (by omega))]
  have h4 : fetchTopicsFrom env 4 = ([2000], .failed true) := by
    rw [fetchTopicsFrom, henv 4]
    dsimp only
    rw [dif_pos ⟨rfl, by omega⟩]
    simp [h5]
  have h3 : fetchTopicsFrom env 3 = ([2000, 2000], .failed true) := by
    rw [fetchTopicsFrom, henv 3]
    dsimp only
    rw [dif_pos ⟨rfl, by omega⟩]
    simp [h4]
  have h2 : fetchTopicsFrom env 2 = ([2000, 2000, 2000], .failed true) := by
    rw [fetchTopicsFrom, henv 2]
    dsimp only
    rw [dif_pos ⟨rfl, by omega⟩]
    simp [h3]
  have h1 : fetchTopicsFrom env 1 = ([2000, 2000, 2000, 2000], .failed true) := by
    rw [fetchTopicsFrom, henv 1]
    dsimp only
    rw [dif_pos ⟨rfl, by omega⟩]
    simp [h2]
  rw [fetchTopicsFrom, henv 0]
  dsimp only
  rw [dif_pos ⟨rfl, by omega⟩]
  simp [h1]

/-- C8: the topic-list fetch loop is bounded and terminates: at most 5
retries, each scheduled with a fixed 2000 ms delay; under persistent
backend-down failure it performs exactly 5 retries (6 requests) and
then surfaces the error state; an immediate success or a
non-connectivity error ends the loop with no retry. -/
theorem c8_topics_retry_bounded (env : Nat → TopicsResponse) :
    (fetchTopicsFrom env 0).1.length ≤ 5 ∧
    (∀ d, d ∈ (fetchTopicsFrom env 0).1 → d = 2000) ∧
    ((∀ n, env n = .err true) →
      fetchTopicsFrom env 0 = ([2000, 2000, 2000, 2000, 2000], .failed true)) ∧
    (∀ ts, env 0 = .ok ts → fetchTopicsFrom env 0 = ([], .loaded ts)) ∧
    (env 0 = .err false → fetchTopicsFrom env 0 = ([], .failed false)) := by
  refine ⟨fetchTopicsFrom_len_le env 5 0 (by omega),
    fetchTopicsFrom_delay_eq env 5 0 (by omega),
    fetchTopicsFrom_persistent env, ?_, ?_⟩
  · intro ts h
    rw [fetchTopicsFrom, h]
  · intro h
    rw [fetchTopicsFrom, h]
    dsimp only
    rw [dif_neg (fun hconj => Bool.false_ne_true hconj.1)]

/-- Witness for C8: under persistent backend-down failure, five
2-second retries then the error state. -/
theorem c8_topics_retry_bounded_witness :
    fetchTopicsFrom (fun _ => .err true) 0
      = ([2000, 2000, 2000, 2000, 2000], .failed true) :=
  (c8_topics_retry_bounded (fun _ => .err true)).2.2.1 (fun _ => rfl)

/-- C9: deletion declined by the confirmation leaves the list unchanged
and sends no request; a successful request removes the topic from the
displayed list; a failed request leaves the list unchanged and shows
the alert. -/
theorem c9_delete_confirmation (topics : List String) (topic : String) :
    (∀ ok, handleDelete topics topic false ok = ⟨topics, false, false⟩) ∧
    (handleDelete topics topic true true
        = ⟨topics.filter (fun t => t ≠ topic), true, false⟩ ∧
      topic ∉ (handleDelete topics topic true true).topics) ∧
    (handleDelete topics topic true false = ⟨topics, true, true⟩) := by
  refine ⟨fun ok => rfl, ⟨rfl, ?_⟩, rfl⟩
  simp [handleDelete, List.mem_filter]

/-- Witness for C9: confirmed successful deletion of "a" from
["a", "b"] leaves ["b"], with the request sent and no alert. -/
theorem c9_delete_confirmation_witness :
    handleDelete ["a", "b"] "a" true true = ⟨["b"], true, false⟩ :=
  ((c9_delete_confirmation ["a", "b"] "a").2.1).1

/-- C10: completing a lesson whose chapter is not a chapter key of the
fetched roadmap resolves next to the completed pair itself, and the
posted payload holds position unchanged. -/
theorem c10_stale_chapter_holds_position (R : Roadmap) (t c l : String)
    (h : c ∉ objKeys R) :
    resolveNextLesson R c l = (c, some l) ∧
    buildCompletionPayload R t c l = ⟨t, c, l, c, some l⟩ := by
  have hidx : jsIndexOf (objKeys R) c = -1 :=
    jsIndexOf_eq_neg_one_of_not_mem _ _ h
  have hres : resolveNextLesson R c l = (c, some l) := by
    simp only [resolveNextLesson, hidx]
    simp
  exact ⟨hres, by simp only [buildCompletionPayload, hres]⟩

/-- Witness for C10: completing a lesson of the removed chapter "Gone"
posts next_chapter = "Gone", next_lesson = "L9". -/
theorem c10_stale_chapter_holds_position_witness :
    resolveNextLesson [("A", [("L1", "")])] "Gone" "L9"
        = ("Gone", some "L9") ∧
    buildCompletionPayload [("A", [("L1", "")])] "t" "Gone" "L9"
        = ⟨"t", "Gone", "L9", "Gone", some "L9"⟩ :=
  c10_stale_chapter_holds_position [("A", [("L1", "")])] "t" "Gone" "L9"
    (by decide)
